import Mathlib

/-!
# The looper Stepper (src/looper/step.go), shallowly embedded

The scheduler under verification is the recursive nested-loop executor in
`src/looper/step.go`: `Stepper.Run`, `Stepper.runLevel`, `Stepper.phaseLogic`,
together with the `Ctr` counter type.  The static configuration types
(`LoopManager`, the per-mode stack with its `Order` slice and `Loops` map,
`LoopStructure` with `OnStart`/`Main`/`OnEnd`/`IsDone`/`Phases`, and the
phase record) are not among the given sources; their shape is reconstructed
from the way `step.go` reads them and from the spec's data model, and is
marked below where it is spec-modelled.

Modelling decisions, all visible in the definitions:

* Hooks are opaque side-effecting callbacks; a run therefore returns a
  *trace*, a list of `Event`s recording each callback invocation (which
  level, which hook list, which position in the list, at which counter
  value).  A hook list is embedded as its length: hook `i` of a list of
  length `n` is the callback registered at position `i`.
* Termination predicates (`loop.IsDone`) are opaque closures returning
  `Bool`.  A predicate is embedded as a function `Nat → Bool` of its own
  invocation count: call number `k` (counted from 0 over the whole
  execution) returns `b k`.  The invocation counts are part of the run
  state (`predN`), and every evaluation is recorded in the trace.
* `loop.IsDone` is a Go `map[string]func() bool`; Go specifies nothing
  about its iteration order.  The embedding carries the predicates as a
  list `List (String × (Nat → Bool))` whose order stands for the order in
  which one execution's `range` happens to walk the map; two executions of
  the same program may walk the same map in different orders, which the
  embedding renders as two configurations related by `PermutedIsDone`.
* Go `int` is embedded as `Int` (counter values, maxima, `StepIterations`,
  `lastStoppedLevel`); no arithmetic here can overflow at machine width.
* The `fmt.Println` control-flow logging in `runLevel` writes to stdout,
  fires no user callback, and is not part of any claim; it is not modelled.
* Go can loop forever (`ctr.Max < 0`), so `runLevel` takes a fuel bound
  and returns `none` when the bound is hit; `runLevel_mono` shows a
  completed result is stable under more fuel.
-/

/-- Counter from `src/looper/step.go` (second file section): current value
and maximum, both Go ints. -/
structure Ctr where
  Cur : Int
  Max : Int
deriving DecidableEq, Repr

/-- `Ctr.Incr`: increments the counter by 1; does not interact with Max. -/
def Ctr.Incr (ct : Ctr) : Ctr := { ct with Cur := ct.Cur + 1 }

/-- `Ctr.IsOverMax`: true if counter is at or over Max (only if Max > 0). -/
def Ctr.IsOverMax (ct : Ctr) : Bool := ct.Max > 0 && ct.Cur >= ct.Max

/-- `Ctr.Set`: sets Cur if different, returns whether it changed. -/
def Ctr.Set (ct : Ctr) (cur : Int) : Ctr × Bool :=
  if ct.Cur = cur then (ct, false) else ({ ct with Cur := cur }, true)

/-- One phase of a level's phase schedule.  Modelled from the spec (§3
"Phase") and the reads in `Stepper.phaseLogic`: a duration plus three hook
lists (`PhaseStart`, `OnMillisecondEnd` — the per-tick list — and
`PhaseEnd`), each embedded as its length. -/
structure Phase where
  Duration : Int
  PhaseStart : Nat
  OnMillisecondEnd : Nat
  PhaseEnd : Nat

/-- One loop level (`LoopStructure` in the source's terms).  Modelled from
the spec (§3 "Loop Level") and the reads in `Stepper.runLevel`: a timescale
identifier (`etime.Times`, embedded as `Nat`), the counter maximum (the
`Max` of the level's `Ctr`; the mutable `Cur` lives in the run state), the
`OnStart`/`Main`/`OnEnd` hook lists, the named termination predicates, and
the phase schedule. -/
structure Level where
  Time : Nat
  Max : Int
  OnStart : Nat
  Main : Nat
  OnEnd : Nat
  IsDone : List (String × (Nat → Bool))
  Phases : List Phase

/-- A stack: the levels in outer-to-inner `Order`.  In the source, `Order`
is a slice of timescales and `Loops` a map timescale → level; `runLevel`
only ever composes the two (`st.Loops[st.Order[currentLevel]]`), so the
embedding fuses them into one list. -/
abbrev Stack := List Level

/-- The events a run can emit, one per callback invocation.  Each records
the level index, the position of the callback in its hook list, and the
level's counter value at the time of the call; predicate evaluations also
record the predicate's name and result. -/
inductive Event where
  | onStart (lv i : Nat) (cur : Int)
  | mainFn (lv i : Nat) (cur : Int)
  | onEnd (lv i : Nat) (cur : Int)
  | isDoneEv (lv : Nat) (nm : String) (res : Bool) (cur : Int)
  | phStart (lv ph i : Nat) (cur : Int)
  | phTick (lv ph i : Nat) (cur : Int)
  | phEnd (lv ph i : Nat) (cur : Int)
deriving DecidableEq, Repr

/-- The Stepper's mutable state: the control fields of the Go `Stepper`
struct, plus the mutable parts of the configuration it drives — each
level's counter value (`cur`, indexed like the stack) and each termination
predicate's invocation count (`predN`, outer index the level, inner index
the predicate's position in the iteration order). -/
structure Stepper where
  StopFlag : Bool
  StopNext : Bool
  StopLevel : Nat
  StepIterations : Int
  lastStoppedLevel : Int
  internalStop : Bool
  cur : List Int
  predN : List (List Nat)
deriving DecidableEq, Repr

/-- `Stepper.phaseLogic` (lines 119–140): walk the phase list keeping the
cumulative `amount`; fire `PhaseStart` when `Cur == amount - Duration`,
`OnMillisecondEnd` when `Cur < amount`, `PhaseEnd` when `Cur == amount - 1`.
Arguments: level index, the level's counter value, the phases still to
walk, the running `amount`, and the index of the next phase. -/
def phaseLogic (lv : Nat) (c : Int) : List Phase → Int → Nat → List Event
  | [], _, _ => []
  | ph :: rest, amount0, p =>
    let amount := amount0 + ph.Duration
    (if c = amount - ph.Duration then
      (List.range ph.PhaseStart).map (fun i => Event.phStart lv p i c)
     else []) ++
    (if c < amount then
      (List.range ph.OnMillisecondEnd).map (fun i => Event.phTick lv p i c)
     else []) ++
    (if c = amount - 1 then
      (List.range ph.PhaseEnd).map (fun i => Event.phEnd lv p i c)
     else []) ++
    phaseLogic lv c rest amount (p + 1)

/-- Lines 99–105: `for name, fun := range loop.IsDone { if fun() { ctr.Cur = 0;
goto exitLoop } }`.  Walks the predicates in iteration order; each call is
counted in `predN` and recorded in the trace; the first `true` resets the
level's counter and stops the walk (the returned flag is the `goto`).
Arguments: level index, counter value (for the trace), predicates still to
walk, position of the next predicate, state. -/
def isDoneSeq (lv : Nat) (c : Int) :
    List (String × (Nat → Bool)) → Nat → Stepper → Stepper × List Event × Bool
  | [], _, s => (s, [], false)
  | (nm, b) :: rest, i, s =>
    let k := (s.predN.getD lv []).getD i 0
    let res := b k
    let s1 : Stepper :=
      { s with predN := s.predN.set lv ((s.predN.getD lv []).set i (k + 1)) }
    if res then
      ({ s1 with cur := s1.cur.set lv 0 }, [Event.isDoneEv lv nm res c], true)
    else
      match isDoneSeq lv c rest (i + 1) s1 with
      | (s2, evs, ex) => (s2, Event.isDoneEv lv nm res c :: evs, ex)

/-- The result of the head of a loop pass (lines 55–83): either the
suspension return (`stop`, line 63: `return false`) or the state after the
step-count block and the (possibly skipped) start-work, together with the
events the start-work and the unconditional `phaseLogic` call emitted. -/
inductive PassCtl where
  | stop (s : Stepper)
  | go (s : Stepper) (evs : List Event)

/-- Lines 55–86 of `Stepper.runLevel`, the head of one pass of the while
loop: mark the interruption if a stop is armed for this timescale, return
`false` at the suspension point if an interruption is marked (clearing
`StopFlag`), run the step-count block, run the start-work unless this
level's iteration was already begun before an interruption
(`currentLevel >= lastStoppedLevel`), then evaluate the phase schedule —
which the source calls unconditionally, whether or not the start-work ran. -/
def passEnter (d : Nat) (loop : Level) (c : Int) (s : Stepper) : PassCtl :=
  let s1 : Stepper :=
    if s.StopFlag ∧ loop.Time = s.StopLevel then
      { s with internalStop := true, lastStoppedLevel := (d : Int) }
    else s
  if s1.internalStop then
    PassCtl.stop { s1 with StopFlag := false }
  else
    let s2 : Stepper :=
      if s1.StopNext ∧ loop.Time = s1.StopLevel then
        let si := s1.StepIterations - 1
        if si ≤ 0 then
          { s1 with StepIterations := si, StopNext := false, StopFlag := true,
                    lastStoppedLevel := -1 }
        else { s1 with StepIterations := si }
      else s1
    if (d : Int) ≥ s2.lastStoppedLevel then
      PassCtl.go { s2 with lastStoppedLevel := -1 }
        (((List.range loop.OnStart).map (fun i => Event.onStart d i c)) ++
          phaseLogic d c loop.Phases 0 0)
    else
      PassCtl.go s2 (phaseLogic d c loop.Phases 0 0)

/-- Lines 90–105 of `Stepper.runLevel`, the tail of a pass whose inner run
completed: fire `Main`, then `OnEnd`, then walk the termination predicates;
the returned flag says whether a predicate fired (`goto exitLoop`). -/
def passAfter (d : Nat) (loop : Level) (c : Int) (s : Stepper) :
    Stepper × List Event × Bool :=
  let evMain := (List.range loop.Main).map (fun i => Event.mainFn d i c)
  let evEnd := (List.range loop.OnEnd).map (fun i => Event.onEnd d i c)
  match isDoneSeq d c loop.IsDone 0 s with
  | (s1, evP, exited) => (s1, evMain ++ evEnd ++ evP, exited)

/-- Lines 110–115, the `exitLoop` label: reset this level's counter unless
an internal stop is pending. -/
def exitLoopSt (d : Nat) (s : Stepper) : Stepper :=
  if s.internalStop then s else { s with cur := s.cur.set d 0 }

/-- `Stepper.runLevel` (lines 44–116), with a fuel bound: one unit of fuel
per pass of the while loop.  Past the bottom of the stack it returns
`true` (line 48); while `ctr.Cur < ctr.Max || ctr.Max < 0` it runs passes —
head (`passEnter`), recursion into the next level, and on a completed inner
run the tail (`passAfter`), then either the `goto exitLoop` or the counter
increment and the next pass; when the while condition fails it falls
through to `exitLoop`.  The returned `Bool` is `runLevel`'s: `true` means
this sub-hierarchy completed, `false` propagates a suspension. -/
def runLevel (cfg : Stack) : Nat → Nat → Stepper →
    Option (Stepper × Bool × List Event)
  | 0, _, _ => none
  | fuel + 1, d, s =>
    match cfg.get? d with
    | none => some (s, true, [])
    | some loop =>
      let c := s.cur.getD d 0
      if c < loop.Max ∨ loop.Max < 0 then
        match passEnter d loop c s with
        | PassCtl.stop s1 => some (s1, false, [])
        | PassCtl.go s1 evs =>
          match runLevel cfg fuel (d + 1) s1 with
          | none => none
          | some (s2, runComplete, evIn) =>
            if runComplete then
              match passAfter d loop c s2 with
              | (s3, evs2, exited) =>
                if exited then
                  some (exitLoopSt d s3, true, evs ++ evIn ++ evs2)
                else
                  match runLevel cfg fuel d
                      { s3 with cur := s3.cur.set d (c + 1) } with
                  | none => none
                  | some (s4, b, evR) =>
                    some (s4, b, evs ++ evIn ++ evs2 ++ evR)
            else
              match runLevel cfg fuel d s2 with
              | none => none
              | some (s4, b, evR) => some (s4, b, evs ++ evIn ++ evR)
      else
        some (exitLoopSt d s, true, [])

/-- `Stepper.Run` (lines 35–41): clear `internalStop`, then enter the
recursive executor at the top level. -/
def Run (cfg : Stack) (fuel : Nat) (s : Stepper) :
    Option (Stepper × Bool × List Event) :=
  runLevel cfg fuel 0 { s with internalStop := false }

/-- `Stepper.Init` (lines 28–33) restricted to the run state: flags clear,
`lastStoppedLevel = -1`, a chosen `StopLevel`, counters zero, predicate
invocation counts zero. -/
def Init (cfg : Stack) (stopLevel : Nat) : Stepper :=
  { StopFlag := false, StopNext := false, StopLevel := stopLevel,
    StepIterations := 0, lastStoppedLevel := -1, internalStop := false,
    cur := List.replicate cfg.length 0,
    predN := cfg.map (fun L => List.replicate L.IsDone.length 0) }

/-- Modelled from the spec: the control operation `requestStop(atTimescale)`
(§4.3 Controls; §6 control surface).  Its body is not among the given
sources — only the `Stepper` fields it sets are — so it is taken from the
spec's words: arm an immediate stop at the named timescale. -/
def requestStop (t : Nat) (s : Stepper) : Stepper :=
  { s with StopFlag := true, StopLevel := t }

/-- Modelled from the spec: the control operation `requestStep(atTimescale, n)`
(§4.3 Controls; §6 control surface).  Its body is not among the given
sources; per the spec it arms a counted stop: run `n` further iterations at
the named timescale, then behave as an armed `requestStop`. -/
def requestStep (t : Nat) (n : Int) (s : Stepper) : Stepper :=
  { s with StopNext := true, StopLevel := t, StepIterations := n }

/-! ## Small accessors used by the claims -/

/-- The completion flag of a run result (`false` when fuel ran out). -/
def resCompleted : Option (Stepper × Bool × List Event) → Bool
  | some (_, b, _) => b
  | none => false

/-- The trace of a run result. -/
def resTrace : Option (Stepper × Bool × List Event) → List Event
  | some (_, _, tr) => tr
  | none => []

/-- The final state of a run result, defaulting to `Init [] 0`. -/
def resSt : Option (Stepper × Bool × List Event) → Stepper
  | some (s, _, _) => s
  | none => Init [] 0

/-- Whether a run result is a completed or suspended run (not out of fuel). -/
def resSome : Option (Stepper × Bool × List Event) → Bool
  | some _ => true
  | none => false

/-- Number of `OnStart` hook firings of level `lv` in a trace. -/
def countStart (lv : Nat) (tr : List Event) : Nat :=
  tr.countP (fun e => match e with
    | Event.onStart l _ _ => l == lv
    | _ => false)

/-- Number of `Main` hook firings of level `lv` in a trace. -/
def countMain (lv : Nat) (tr : List Event) : Nat :=
  tr.countP (fun e => match e with
    | Event.mainFn l _ _ => l == lv
    | _ => false)

/-- Number of `OnEnd` hook firings of level `lv` in a trace. -/
def countEnd (lv : Nat) (tr : List Event) : Nat :=
  tr.countP (fun e => match e with
    | Event.onEnd l _ _ => l == lv
    | _ => false)

/-- Number of evaluations of the predicate named `nm` of level `lv`. -/
def countIsDone (lv : Nat) (nm : String) (tr : List Event) : Nat :=
  tr.countP (fun e => match e with
    | Event.isDoneEv l n _ _ => l == lv && n == nm
    | _ => false)

/-- Number of `PhaseStart` firings of phase `ph` of level `lv`. -/
def countPhStart (lv ph : Nat) (tr : List Event) : Nat :=
  tr.countP (fun e => match e with
    | Event.phStart l p _ _ => l == lv && p == ph
    | _ => false)

/-- Number of `OnMillisecondEnd` (tick) firings of phase `ph` of level `lv`
at counter value `c`. -/
def countPhTickAt (lv ph : Nat) (c : Int) (tr : List Event) : Nat :=
  tr.countP (fun e => match e with
    | Event.phTick l p _ cv => l == lv && p == ph && cv == c
    | _ => false)

/-- The counter maximum of level `k` of a stack (0 past the bottom). -/
def maxAt (cfg : Stack) (k : Nat) : Int :=
  match cfg.get? k with
  | some L => L.Max
  | none => 0

/-- The `OnStart` hook-list length of level `k` of a stack. -/
def nStartAt (cfg : Stack) (k : Nat) : Nat :=
  match cfg.get? k with
  | some L => L.OnStart
  | none => 0

/-- The `Main` hook-list length of level `k` of a stack. -/
def nMainAt (cfg : Stack) (k : Nat) : Nat :=
  match cfg.get? k with
  | some L => L.Main
  | none => 0

/-- The `OnEnd` hook-list length of level `k` of a stack. -/
def nEndAt (cfg : Stack) (k : Nat) : Nat :=
  match cfg.get? k with
  | some L => L.OnEnd
  | none => 0

/-- Product of the iteration counts (`Max`, clamped to `Nat`) of the levels
`a`, `a+1`, …, `j` of a stack: the number of times the hooks of level `j`
fire during one full run of level `a`, when every level is bounded. -/
def prodMax (cfg : Stack) (a j : Nat) : Nat :=
  ((List.range (j + 1 - a)).map (fun k => (maxAt cfg (a + k)).toNat)).prod

/-- Two stacks that embed the same Go configuration: identical except that
each level's `IsDone` list — the order in which one execution's `range`
walks the predicate map, which the Go language does not determine — may be
a permutation of the other's. -/
def PermutedIsDone (c1 c2 : Stack) : Prop :=
  List.Forall₂ (fun L1 L2 => L1.Time = L2.Time ∧ L1.Max = L2.Max ∧
    L1.OnStart = L2.OnStart ∧ L1.Main = L2.Main ∧ L1.OnEnd = L2.OnEnd ∧
    L1.Phases = L2.Phases ∧ L1.IsDone.Perm L2.IsDone) c1 c2

/-! ## Concrete configurations used by individual claims -/

/-- C1 scenario: two levels, the outer one carrying a phase (duration 1)
with a single `PhaseStart` hook, the inner one a plain level with an
`OnStart` and an `OnEnd` hook. -/
def cfgC1 : Stack :=
  [ { Time := 0, Max := 1, OnStart := 0, Main := 0, OnEnd := 0, IsDone := [],
      Phases := [ { Duration := 1, PhaseStart := 1, OnMillisecondEnd := 0,
                    PhaseEnd := 0 } ] },
    { Time := 1, Max := 1, OnStart := 1, Main := 0, OnEnd := 1, IsDone := [],
      Phases := [] } ]

/-- C1 scenario: the run interrupted by `requestStop` at timescale 1. -/
def c1r1 : Option (Stepper × Bool × List Event) :=
  Run cfgC1 20 (requestStop 1 (Init cfgC1 0))

/-- C1 scenario: the resuming run. -/
def c1r2 : Option (Stepper × Bool × List Event) :=
  Run cfgC1 20 (resSt c1r1)

/-- C2 counterexample configuration: one bounded level (`Max = 2`) with one
`OnEnd` hook and a termination predicate that always returns true. -/
def cfgC2x : Stack :=
  [ { Time := 0, Max := 2, OnStart := 0, Main := 0, OnEnd := 1,
      IsDone := [("t", fun _ => true)], Phases := [] } ]

/-- C3 phase schedule: durations [2,3], one hook of each kind per phase. -/
def phsC3 : List Phase :=
  [ { Duration := 2, PhaseStart := 1, OnMillisecondEnd := 1, PhaseEnd := 1 },
    { Duration := 3, PhaseStart := 1, OnMillisecondEnd := 1, PhaseEnd := 1 } ]

/-- C4 counterexample: one level, two never-true predicates, in the order
a, b. -/
def cfgC4a : Stack :=
  [ { Time := 0, Max := 1, OnStart := 0, Main := 0, OnEnd := 0,
      IsDone := [("a", fun _ => false), ("b", fun _ => false)], Phases := [] } ]

/-- C4 counterexample: the same Go configuration with the predicate map
walked in the other order b, a. -/
def cfgC4b : Stack :=
  [ { Time := 0, Max := 1, OnStart := 0, Main := 0, OnEnd := 0,
      IsDone := [("b", fun _ => false), ("a", fun _ => false)], Phases := [] } ]

/-- C5 counterexample: one level with two predicates that both always
return true. -/
def cfgC5 : Stack :=
  [ { Time := 0, Max := 1, OnStart := 0, Main := 0, OnEnd := 0,
      IsDone := [("a", fun _ => true), ("b", fun _ => true)], Phases := [] } ]

/-- C6 scenario: two levels of max 2 each, one `OnEnd` hook each; the step
request targets timescale 1 (the inner level). -/
def cfgC6 : Stack :=
  [ { Time := 0, Max := 2, OnStart := 0, Main := 0, OnEnd := 1, IsDone := [],
      Phases := [] },
    { Time := 1, Max := 2, OnStart := 0, Main := 0, OnEnd := 1, IsDone := [],
      Phases := [] } ]

/-- C6 scenario: the first run after `requestStep(1, 3)`. -/
def c6r1 : Option (Stepper × Bool × List Event) :=
  Run cfgC6 30 (requestStep 1 3 (Init cfgC6 0))

/-- C6 scenario: the resuming run. -/
def c6r2 : Option (Stepper × Bool × List Event) :=
  Run cfgC6 30 (resSt c6r1)

/-- C7 scenario: outer level of max 10 with an `OnEnd` hook and a predicate
returning true on its third evaluation, over an inner level of max 2. -/
def cfgC7 : Stack :=
  [ { Time := 0, Max := 10, OnStart := 0, Main := 0, OnEnd := 1,
      IsDone := [("stopEarly", fun k => decide (2 ≤ k))], Phases := [] },
    { Time := 1, Max := 2, OnStart := 0, Main := 0, OnEnd := 1, IsDone := [],
      Phases := [] } ]

/-- C7 scenario: the single uninterrupted run. -/
def c7r : Option (Stepper × Bool × List Event) := Run cfgC7 60 (Init cfgC7 0)

/-- C8 scenario: one unbounded level (`Max = -1`) with an `OnEnd` hook and
a predicate returning true on its seventh evaluation. -/
def cfgC8 : Stack :=
  [ { Time := 0, Max := -1, OnStart := 0, Main := 0, OnEnd := 1,
      IsDone := [("afterSeven", fun k => decide (6 ≤ k))], Phases := [] } ]

/-- C9 witness configuration: a single plain level. -/
def cfgC9 : Stack :=
  [ { Time := 0, Max := 3, OnStart := 1, Main := 1, OnEnd := 1, IsDone := [],
      Phases := [] } ]

/-- C9 witness state: an interruption marked at depth 0, stop flag already
consumed, counter mid-range. -/
def stC9 : Stepper :=
  { StopFlag := false, StopNext := false, StopLevel := 0, StepIterations := 0,
    lastStoppedLevel := 0, internalStop := true, cur := [1], predN := [[]] }

/-- C10 witness configuration: a level with `Max = 0` but hooks and a phase
registered, above a plain level. -/
def cfgC10 : Stack :=
  [ { Time := 0, Max := 0, OnStart := 3, Main := 2, OnEnd := 2, IsDone := [],
      Phases := [ { Duration := 1, PhaseStart := 1, OnMillisecondEnd := 1,
                    PhaseEnd := 1 } ] },
    { Time := 1, Max := 2, OnStart := 1, Main := 1, OnEnd := 1, IsDone := [],
      Phases := [] } ]

/-- Extract the hook position of an `OnStart` firing of level `lv`. -/
def startIdx (lv : Nat) : Event → Option Nat
  | Event.onStart l i _ => if l = lv then some i else none
  | _ => none

/-- Extract the hook position of a `Main` firing of level `lv`. -/
def mainIdx (lv : Nat) : Event → Option Nat
  | Event.mainFn l i _ => if l = lv then some i else none
  | _ => none

/-- Extract the hook position of an `OnEnd` firing of level `lv`. -/
def endIdx (lv : Nat) : Event → Option Nat
  | Event.onEnd l i _ => if l = lv then some i else none
  | _ => none

/-- A state with no stop or step request pending and no resumption marker. -/
def quiet (s : Stepper) : Prop :=
  s.StopFlag = false ∧ s.StopNext = false ∧ s.internalStop = false ∧
    s.lastStoppedLevel = -1

/-- No termination predicate of the stack ever returns true. -/
def NeverDone (cfg : Stack) : Prop :=
  ∀ L ∈ cfg, ∀ p ∈ L.IsDone, ∀ k, p.2 k = false

/-- The hook-count-and-order contract for the trace of a full quiet run of
the levels from depth `d` down: levels above `d` do not fire, and for each
level `j ≥ d` the positions of its `OnStart` (resp. `Main`, `OnEnd`)
firings, in trace order, are exactly `prodMax cfg d j` rounds of
`0, 1, …, len-1` — each hook fires `prodMax cfg d j` times, each round in
registration order. -/
def FullCounts (cfg : Stack) (d : Nat) (tr : List Event) : Prop :=
  ∀ j, j < cfg.length →
    (j < d → tr.filterMap (startIdx j) = [] ∧ tr.filterMap (mainIdx j) = [] ∧
      tr.filterMap (endIdx j) = []) ∧
    (d ≤ j →
      tr.filterMap (startIdx j) =
        List.flatten (List.replicate (prodMax cfg d j) (List.range (nStartAt cfg j))) ∧
      tr.filterMap (mainIdx j) =
        List.flatten (List.replicate (prodMax cfg d j) (List.range (nMainAt cfg j))) ∧
      tr.filterMap (endIdx j) =
        List.flatten (List.replicate (prodMax cfg d j) (List.range (nEndAt cfg j))))

/-- As `FullCounts`, but for the trace of `n` remaining iterations of the
while loop at depth `d` (each of which runs the levels below in full): the
firing rounds number `n * prodMax cfg (d+1) j`. -/
def LoopCounts (cfg : Stack) (d n : Nat) (tr : List Event) : Prop :=
  ∀ j, j < cfg.length →
    (j < d → tr.filterMap (startIdx j) = [] ∧ tr.filterMap (mainIdx j) = [] ∧
      tr.filterMap (endIdx j) = []) ∧
    (d ≤ j →
      tr.filterMap (startIdx j) =
        List.flatten (List.replicate (n * prodMax cfg (d + 1) j) (List.range (nStartAt cfg j))) ∧
      tr.filterMap (mainIdx j) =
        List.flatten (List.replicate (n * prodMax cfg (d + 1) j) (List.range (nMainAt cfg j))) ∧
      tr.filterMap (endIdx j) =
        List.flatten (List.replicate (n * prodMax cfg (d + 1) j) (List.range (nEndAt cfg j))))

/-- C2 witness configuration: two plain bounded levels with hooks. -/
def cfgC2w : Stack :=
  [ { Time := 0, Max := 2, OnStart := 2, Main := 1, OnEnd := 1, IsDone := [],
      Phases := [] },
    { Time := 1, Max := 3, OnStart := 1, Main := 2, OnEnd := 1, IsDone := [],
      Phases := [] } ]

/-- C4 amended witness configurations: a single level, one predicate. -/
def cfgC4w1 : Stack :=
  [ { Time := 0, Max := 1, OnStart := 0, Main := 0, OnEnd := 1,
      IsDone := [("p", fun _ => false)], Phases := [] } ]

/-- The same configuration, written separately. -/
def cfgC4w2 : Stack :=
  [ { Time := 0, Max := 1, OnStart := 0, Main := 0, OnEnd := 1,
      IsDone := [("p", fun _ => false)], Phases := [] } ]

/-- C5 amended witness configuration: one level of max 5 whose single
predicate returns true at once. -/
def cfgC5w : Stack :=
  [ { Time := 0, Max := 5, OnStart := 0, Main := 1, OnEnd := 1,
      IsDone := [("q", fun _ => true)], Phases := [] } ]

/-- Default entry for reading a predicate list. -/
def pdflt : String × (Nat → Bool) := ("", fun _ => false)

/-! ## Helper lemmas -/

/-- Setting a list entry to the value `getD` already reads there changes
nothing. -/
theorem set_getD_eq_self (l : List Int) : ∀ d : Nat, l.set d (l.getD d 0) = l := by
  induction l with
  | nil => intro d; rfl
  | cons x xs ih =>
    intro d
    cases d with
    | zero => simp
    | succ d => simpa using ih d

/-- Setting index `d` of a list of integers to 0 is the identity when the
list already reads 0 there. -/
theorem set_zero_of_getD (l : List Int) : ∀ d : Nat, l.getD d 0 = 0 → l.set d 0 = l := by
  intro d h
  have := set_getD_eq_self l d
  rwa [h] at this

/-! ## Claims -/

/-- C1 (code bug): resumption is *not* transparent for phase hooks.  In
`cfgC1` the uninterrupted run fires the outer level's `PhaseStart` hook
once (for counter value 0), but the pair of runs interrupted at timescale 1
and resumed fires it twice for the same counter value, because the source
calls `phaseLogic` outside the `currentLevel >= lastStoppedLevel` guard
that suppresses re-running start work on resumption.  This contradicts the
scheduler's stated purpose (`runLevel`'s own comment: stop and resume at
any point) and the spec's rule that phase evaluation happens exactly once
per counter value, immediately after the `onStart` hooks. -/
theorem C1_phase_hook_refires :
    resTrace (Run cfgC1 20 (Init cfgC1 0)) =
      [Event.phStart 0 0 0 0, Event.onStart 1 0 0, Event.onEnd 1 0 0] ∧
    countPhStart 0 0 (resTrace (Run cfgC1 20 (Init cfgC1 0))) = 1 ∧
    resCompleted c1r1 = false ∧
    resCompleted c1r2 = true ∧
    resTrace c1r1 ++ resTrace c1r2 =
      [Event.phStart 0 0 0 0, Event.phStart 0 0 0 0,
       Event.onStart 1 0 0, Event.onEnd 1 0 0] ∧
    countPhStart 0 0 (resTrace c1r1 ++ resTrace c1r2) = 2 := by
  decide

/-- C2 counterexample: the claim quantifies over every configuration whose
maxima are positive with no stop/step request, but a configuration may
carry a termination predicate; in `cfgC2x` (one level, `Max = 2`, an
always-true predicate) the single `OnEnd` hook fires once, not
`prodMax cfgC2x 0 0 = 2` times. -/
theorem C2_counterexample :
    (∀ L ∈ cfgC2x, 0 < L.Max) ∧
    resCompleted (Run cfgC2x 10 (Init cfgC2x 0)) = true ∧
    countEnd 0 (resTrace (Run cfgC2x 10 (Init cfgC2x 0))) = 1 ∧
    prodMax cfgC2x 0 0 = 2 := by
  decide

/-- C3 (code bug): the tick condition in `phaseLogic` is `ctr.Cur < amount`
with no lower bound, so a later phase's `OnMillisecondEnd` hooks also fire
during earlier phases, contrary to the source's own comment ("In between on
Start and on End, inclusive") and the spec's `offset <= c < offset +
duration`.  For durations [2,3]: the boundary hooks are correct (phase 0
starts at tick 0 and ends at tick 1, phase 1 starts at tick 2 and ends at
tick 4), but phase 1's tick hook already fires at ticks 0 and 1. -/
theorem C3_tick_fires_before_phase :
    phaseLogic 0 0 phsC3 0 0 =
      [Event.phStart 0 0 0 0, Event.phTick 0 0 0 0, Event.phTick 0 1 0 0] ∧
    phaseLogic 0 1 phsC3 0 0 =
      [Event.phTick 0 0 0 1, Event.phEnd 0 0 0 1, Event.phTick 0 1 0 1] ∧
    phaseLogic 0 2 phsC3 0 0 = [Event.phStart 0 1 0 2, Event.phTick 0 1 0 2] ∧
    phaseLogic 0 3 phsC3 0 0 = [Event.phTick 0 1 0 3] ∧
    phaseLogic 0 4 phsC3 0 0 = [Event.phTick 0 1 0 4, Event.phEnd 0 1 0 4] ∧
    countPhTickAt 0 1 0 (phaseLogic 0 0 phsC3 0 0) = 1 := by
  decide

/-- C4 counterexample: `cfgC4a` and `cfgC4b` embed the same Go
configuration — they differ only in the order in which the `IsDone` map of
the single level is walked, which Go's `range` does not determine — yet the
two executions produce different predicate firing sequences, so the claim
that any two executions agree is false. -/
theorem C4_counterexample :
    PermutedIsDone cfgC4a cfgC4b ∧
    Run cfgC4a 10 (Init cfgC4a 0) ≠ Run cfgC4b 10 (Init cfgC4b 0) := by
  refine ⟨?_, by decide⟩
  exact List.Forall₂.cons
    ⟨rfl, rfl, rfl, rfl, rfl, rfl, List.Perm.swap _ _ _⟩ List.Forall₂.nil

/-- C5 counterexample: with two always-true predicates registered, the
first `true` result jumps to `exitLoop`, so the second predicate of the
collection is never evaluated — refuting "every named termination predicate
… is evaluated". -/
theorem C5_counterexample :
    resCompleted (Run cfgC5 10 (Init cfgC5 0)) = true ∧
    countIsDone 0 "a" (resTrace (Run cfgC5 10 (Init cfgC5 0))) = 1 ∧
    countIsDone 0 "b" (resTrace (Run cfgC5 10 (Init cfgC5 0))) = 0 := by
  decide

/-- C6: after `requestStep(1, 3)` on `cfgC6`, the first `run()` executes
exactly 3 further iterations at the level of timescale 1 (its `OnEnd` hook
fires 3 times) and only the one enclosing iteration those 3 require (the
outer `OnEnd` fires once — the first 2 inner iterations complete the inner
range and hence the first outer iteration), then suspends exactly as an
armed `requestStop(1)` does: interrupted at depth 1 with the stop consumed.
The subsequent `run()` completes, and the two traces concatenate to the
uninterrupted run's trace — nothing beyond the 3 stepped iterations ran
early, nothing was lost. -/
theorem C6_step_three_then_stop :
    resCompleted c6r1 = false ∧
    (resSt c6r1).lastStoppedLevel = 1 ∧
    (resSt c6r1).internalStop = true ∧
    (resSt c6r1).StopFlag = false ∧
    countEnd 1 (resTrace c6r1) = 3 ∧
    countEnd 0 (resTrace c6r1) = 1 ∧
    resCompleted c6r2 = true ∧
    resTrace c6r1 ++ resTrace c6r2 = resTrace (Run cfgC6 30 (Init cfgC6 0)) := by
  decide

/-- C7: in `cfgC7` the outer level's max is 10 but its predicate returns
true on its third evaluation (after the third completed inner iteration);
the run completes with the outer counter reset to 0, and the outer `OnEnd`
hook and the predicate each fired exactly 3 times, not 10. -/
theorem C7_predicate_short_circuit :
    resCompleted c7r = true ∧
    countEnd 0 (resTrace c7r) = 3 ∧
    countIsDone 0 "stopEarly" (resTrace c7r) = 3 ∧
    (resSt c7r).cur = [0, 0] := by
  decide

/-- C9: at the suspension point — a pass of the while loop reached (the
level exists and its counter condition holds) with an interruption marked
(`internalStop`, the stop flag already consumed by the pass that marked
it) — `runLevel` returns `complete = false` with the state exactly as it
was and an empty trace: no hooks fire, no counter moves, and
`lastStoppedLevel` (the resumption marker) is left set, at whatever depth
`d` the check is reached. -/
theorem C9_suspension_is_pure (cfg : Stack) (d : Nat) (loop : Level)
    (s : Stepper) (fuel : Nat)
    (hget : cfg.get? d = some loop)
    (hcond : s.cur.getD d 0 < loop.Max ∨ loop.Max < 0)
    (hInt : s.internalStop = true) (hFlag : s.StopFlag = false) :
    runLevel cfg (fuel + 1) d s = some (s, false, []) := by
  obtain ⟨SF, SN, SL, SI, LS, IS, CU, PN⟩ := s
  cases hInt
  cases hFlag
  rw [List.get?_eq_getElem?] at hget
  simp only [List.getD_eq_getElem?_getD] at hcond
  simp [runLevel, hget, hcond, passEnter]

/-- C9 witness: the theorem applied to the concrete interrupted state
`stC9` over `cfgC9`. -/
theorem C9_suspension_is_pure_witness :
    runLevel cfgC9 5 0 stC9 = some (stC9, false, []) :=
  C9_suspension_is_pure cfgC9 0
    { Time := 0, Max := 3, OnStart := 1, Main := 1, OnEnd := 1, IsDone := [],
      Phases := [] }
    stC9 4 rfl (by decide) rfl rfl

/-- C10: a level whose counter max equals 0 executes zero iterations: the
while condition `Cur < Max || Max < 0` is false at once, so `runLevel`
fires no hook at this or any deeper level, does not recurse, leaves the
counter at 0 and returns `complete = true`. -/
theorem C10_zero_max_zero_iterations (cfg : Stack) (d : Nat) (loop : Level)
    (s : Stepper) (fuel : Nat)
    (hget : cfg.get? d = some loop) (hmax : loop.Max = 0)
    (hcur : s.cur.getD d 0 = 0) (hstop : s.internalStop = false) :
    runLevel cfg (fuel + 1) d s = some (s, true, []) := by
  have hcond : ¬ (s.cur.getD d 0 < loop.Max ∨ loop.Max < 0) := by
    rw [hmax, hcur]; omega
  have hset : s.cur.set d 0 = s.cur := set_zero_of_getD s.cur d hcur
  obtain ⟨SF, SN, SL, SI, LS, IS, CU, PN⟩ := s
  cases hstop
  rw [List.get?_eq_getElem?] at hget
  simp only [List.getD_eq_getElem?_getD] at hcond
  simp [runLevel, hget, hcond, exitLoopSt, hset]

/-- C10 witness: the theorem applied to `cfgC10`, whose outer level has
`Max = 0` but hooks, a phase and a hook-carrying inner level registered:
nothing fires. -/
theorem C10_zero_max_zero_iterations_witness :
    runLevel cfgC10 8 0 (Init cfgC10 0) = some (Init cfgC10 0, true, []) :=
  C10_zero_max_zero_iterations cfgC10 0
    { Time := 0, Max := 0, OnStart := 3, Main := 2, OnEnd := 2, IsDone := [],
      Phases := [ { Duration := 1, PhaseStart := 1, OnMillisecondEnd := 1,
                    PhaseEnd := 1 } ] }
    (Init cfgC10 0) 7 rfl rfl rfl rfl

/-- Fuel stability: a run that finished (completed or suspended — anything
but running out of fuel) returns the same result with any larger bound. -/
theorem runLevel_mono (cfg : Stack) :
    ∀ fuel fuel' d s r, runLevel cfg fuel d s = some r → fuel ≤ fuel' →
      runLevel cfg fuel' d s = some r := by
  intro fuel
  induction fuel with
  | zero => intro fuel' d s r h _; simp [runLevel] at h
  | succ n ih =>
    intro fuel' d s r h hle
    obtain ⟨m, rfl⟩ : ∃ m, fuel' = m + 1 := ⟨fuel' - 1, by omega⟩
    have hnm : n ≤ m := by omega
    simp only [runLevel] at h ⊢
    cases hget : cfg.get? d with
    | none => simp only [hget] at h ⊢; exact h
    | some loop =>
      simp only [hget] at h ⊢
      by_cases hcond : s.cur.getD d 0 < loop.Max ∨ loop.Max < 0
      · simp only [if_pos hcond] at h ⊢
        cases hpe : passEnter d loop (s.cur.getD d 0) s with
        | stop s1 => simp only [hpe] at h ⊢; exact h
        | go s1 evs =>
          simp only [hpe] at h ⊢
          cases hin : runLevel cfg n (d + 1) s1 with
          | none => rw [hin] at h; exact Option.noConfusion h
          | some t =>
            obtain ⟨s2, rc, evIn⟩ := t
            rw [ih m (d + 1) s1 (s2, rc, evIn) hin hnm]
            simp only [hin] at h
            cases rc with
            | false =>
              simp only [Bool.false_eq_true, if_false] at h ⊢
              cases hlp : runLevel cfg n d s2 with
              | none => rw [hlp] at h; exact Option.noConfusion h
              | some t2 =>
                obtain ⟨s4, b, evR⟩ := t2
                rw [ih m d s2 (s4, b, evR) hlp hnm]
                simp only [hlp] at h
                exact h
            | true =>
              simp only [if_true] at h ⊢
              cases hpa : passAfter d loop (s.cur.getD d 0) s2 with
              | mk s3 t3 =>
                obtain ⟨evs2, exited⟩ := t3
                simp only [hpa] at h ⊢
                cases exited with
                | true => simp only [if_true] at h ⊢; exact h
                | false =>
                  simp only [Bool.false_eq_true, if_false] at h ⊢
                  cases hlp : runLevel cfg n d
                      { s3 with cur := s3.cur.set d (s.cur.getD d 0 + 1) } with
                  | none => rw [hlp] at h; exact Option.noConfusion h
                  | some t2 =>
                    obtain ⟨s4, b, evR⟩ := t2
                    rw [ih m d _ (s4, b, evR) hlp hnm]
                    simp only [hlp] at h
                    exact h
      · simp only [if_neg hcond] at h ⊢
        exact h

/-- C8: in `cfgC8` the single level is unbounded (`Max = -1`) and its
predicate returns true on its seventh evaluation; every sufficiently large
fuel bound gives the same finished run — the executor returns rather than
iterating indefinitely — completed, with the `OnEnd` hook fired exactly 7
times and the counter reset to 0. -/
theorem C8_unbounded_predicate_terminates :
    ∀ fuel, 20 ≤ fuel →
      resCompleted (Run cfgC8 fuel (Init cfgC8 0)) = true ∧
      countEnd 0 (resTrace (Run cfgC8 fuel (Init cfgC8 0))) = 7 ∧
      countIsDone 0 "afterSeven" (resTrace (Run cfgC8 fuel (Init cfgC8 0))) = 7 ∧
      (resSt (Run cfgC8 fuel (Init cfgC8 0))).cur = [0] := by
  intro fuel hf
  obtain ⟨r, hr⟩ :
      ∃ r, runLevel cfgC8 20 0
        { Init cfgC8 0 with internalStop := false } = some r := ⟨_, rfl⟩
  have hst := runLevel_mono cfgC8 20 fuel 0 _ r hr hf
  unfold Run
  rw [hst]
  rw [show some r = runLevel cfgC8 20 0
    { Init cfgC8 0 with internalStop := false } from hr.symm]
  decide

/-- C8 witness: the theorem applied at fuel 20. -/
theorem C8_unbounded_predicate_terminates_witness :
    resCompleted (Run cfgC8 20 (Init cfgC8 0)) = true ∧
    countEnd 0 (resTrace (Run cfgC8 20 (Init cfgC8 0))) = 7 ∧
    countIsDone 0 "afterSeven" (resTrace (Run cfgC8 20 (Init cfgC8 0))) = 7 ∧
    (resSt (Run cfgC8 20 (Init cfgC8 0))).cur = [0] :=
  C8_unbounded_predicate_terminates 20 (Nat.le_refl 20)


/-! ## List helper lemmas -/

/-- `getD` after `set` at the same in-bounds index reads the written value. -/
theorem getD_set_eq {α : Type} :
    ∀ (l : List α) (i : Nat) (v dflt : α), i < l.length →
      (l.set i v).getD i dflt = v
  | [], i, _, _, h => absurd h (by simp)
  | _ :: _, 0, _, _, _ => rfl
  | _ :: xs, i + 1, v, dflt, h =>
    getD_set_eq xs i v dflt (by simpa using h)

/-- `getD` after `set` at a different index is unchanged. -/
theorem getD_set_ne {α : Type} :
    ∀ (l : List α) (i j : Nat) (v dflt : α), i ≠ j →
      (l.set i v).getD j dflt = l.getD j dflt
  | [], _, _, _, _, _ => rfl
  | _ :: _, 0, 0, _, _, h => absurd rfl h
  | _ :: _, 0, _ + 1, _, _, _ => rfl
  | _ :: _, _ + 1, 0, _, _, _ => rfl
  | _ :: xs, i + 1, j + 1, v, dflt, h =>
    getD_set_ne xs i j v dflt (fun hh => h (by rw [hh]))

/-- `getD` of a replicated zero list is zero at every index. -/
theorem getD_replicate_zero : ∀ n j, (List.replicate n (0 : Int)).getD j 0 = 0
  | 0, _ => rfl
  | _ + 1, 0 => rfl
  | n + 1, j + 1 => getD_replicate_zero n j

/-- Joining one more copy prepends the copy. -/
theorem join_replicate_succ {α : Type} (n : Nat) (l : List α) :
    List.flatten (List.replicate (n + 1) l) = l ++ List.flatten (List.replicate n l) := by
  rw [List.replicate_succ, List.flatten_cons]

/-- Joining `a + b` copies splits into the two joins. -/
theorem join_replicate_add {α : Type} (a b : Nat) (l : List α) :
    List.flatten (List.replicate (a + b) l) =
      List.flatten (List.replicate a l) ++ List.flatten (List.replicate b l) := by
  rw [List.replicate_add, List.flatten_append]

/-- Unfolding `prodMax` at its left end. -/
theorem prodMax_step (cfg : Stack) (a j : Nat) (h : a ≤ j) :
    prodMax cfg a j = (maxAt cfg a).toNat * prodMax cfg (a + 1) j := by
  unfold prodMax
  have hr : j + 1 - a = (j - a) + 1 := by omega
  rw [hr, List.range_succ_eq_map]
  have hr2 : j + 1 - (a + 1) = j - a := by omega
  rw [hr2]
  simp only [List.map_cons, List.prod_cons, Nat.add_zero, List.map_map]
  congr 1
  have hm : List.map ((fun k => (maxAt cfg (a + k)).toNat) ∘ Nat.succ)
        (List.range (j - a)) =
      List.map (fun k => (maxAt cfg (a + 1 + k)).toNat) (List.range (j - a)) := by
    apply List.map_congr_left
    intro k _
    simp only [Function.comp_apply]
    congr 2
    omega
  rw [hm]

/-- `prodMax` over an empty index range is 1. -/
theorem prodMax_of_gt (cfg : Stack) (a j : Nat) (h : j < a) :
    prodMax cfg a j = 1 := by
  unfold prodMax
  have : j + 1 - a = 0 := by omega
  rw [this]
  simp

/-! ## Behaviour of the pass pieces in a quiet state -/

/-- In a quiet state a pass head never stops: the step block is skipped,
the start-work runs (emitting the `OnStart` events) and the phase schedule
is evaluated. -/
theorem passEnter_quiet (d : Nat) (loop : Level) (c : Int) (s : Stepper)
    (hq : quiet s) :
    passEnter d loop c s = PassCtl.go s
      (((List.range loop.OnStart).map (fun i => Event.onStart d i c)) ++
        phaseLogic d c loop.Phases 0 0) := by
  obtain ⟨h1, h2, h3, h4⟩ := hq
  obtain ⟨SF, SN, SL, SI, LS, IS, CU, PN⟩ := s
  cases h1; cases h2; cases h3; cases h4
  have hge : (-1 : Int) ≤ (d : Int) := by omega
  simp [passEnter, hge]

/-- Walking a predicate list none of whose members ever returns true
touches only `predN`, fires no predicate to true, and its events carry no
hook positions for any extractor. -/
theorem isDoneSeq_never (lv : Nat) (c : Int) :
    ∀ (preds : List (String × (Nat → Bool))),
      (∀ p ∈ preds, ∀ k, p.2 k = false) →
      ∀ i s, ∃ pn evs,
        isDoneSeq lv c preds i s = ({ s with predN := pn }, evs, false) ∧
        (∀ j, evs.filterMap (startIdx j) = [] ∧ evs.filterMap (mainIdx j) = [] ∧
          evs.filterMap (endIdx j) = []) := by
  intro preds
  induction preds with
  | nil =>
    intro _ i s
    exact ⟨s.predN, [], rfl, by intro j; simp⟩
  | cons p rest ih =>
    intro hp i s
    obtain ⟨nm, b⟩ := p
    have hb : b ((s.predN.getD lv []).getD i 0) = false :=
      hp (nm, b) (List.mem_cons_self _ _) _
    obtain ⟨pn, evs, hrec, hfm⟩ :=
      ih (fun q hq => hp q (List.mem_cons_of_mem _ hq)) (i + 1)
        { s with predN := s.predN.set lv ((s.predN.getD lv []).set i
            (((s.predN.getD lv []).getD i 0) + 1)) }
    refine ⟨pn, Event.isDoneEv lv nm false c :: evs, ?_, ?_⟩
    · simp only [isDoneSeq, hb]
      rw [hrec]
      rfl
    · intro j
      obtain ⟨e1, e2, e3⟩ := hfm j
      simp [List.filterMap_cons, startIdx, mainIdx, endIdx, e1, e2, e3]

/-- Every event `phaseLogic` emits is a phase event: the hook extractors
all return `none` on it. -/
theorem phaseLogic_no_hooks (lv : Nat) (c : Int) (j : Nat) :
    ∀ (phs : List Phase) (am : Int) (p : Nat) (e : Event),
      e ∈ phaseLogic lv c phs am p →
      startIdx j e = none ∧ mainIdx j e = none ∧ endIdx j e = none := by
  intro phs
  induction phs with
  | nil => intro am p e he; simp [phaseLogic] at he
  | cons ph rest ih =>
    intro am p e he
    simp only [phaseLogic, List.mem_append] at he
    rcases he with ((hh | hh) | hh) | hh
    · split at hh
      · obtain ⟨i, _, rfl⟩ := List.mem_map.mp hh
        exact ⟨rfl, rfl, rfl⟩
      · simp at hh
    · split at hh
      · obtain ⟨i, _, rfl⟩ := List.mem_map.mp hh
        exact ⟨rfl, rfl, rfl⟩
      · simp at hh
    · split at hh
      · obtain ⟨i, _, rfl⟩ := List.mem_map.mp hh
        exact ⟨rfl, rfl, rfl⟩
      · simp at hh
    · exact ih _ _ e hh

/-- `filterMap` over a mapped list vanishes when the extractor rejects
every produced element. -/
theorem fm_map_none {α β γ : Type} (g : α → β) (f : β → Option γ) (l : List α)
    (h : ∀ a, f (g a) = none) : (l.map g).filterMap f = [] := by
  rw [List.filterMap_map]
  exact List.filterMap_eq_nil.mpr (fun a _ => h a)

/-- `filterMap` over a mapped list is the identity when the extractor
inverts the map. -/
theorem fm_map_some {α β : Type} (g : α → β) (f : β → Option α) :
    ∀ l : List α, (∀ a, f (g a) = some a) → (l.map g).filterMap f = l
  | [], _ => rfl
  | a :: t, h => by
    simp only [List.map_cons, List.filterMap_cons, h a]
    rw [fm_map_some g f t h]

/-- The phase events of `phaseLogic` carry no hook positions. -/
theorem fm_phase (lv : Nat) (c : Int) (j : Nat) (phs : List Phase) (am : Int)
    (p : Nat) :
    (phaseLogic lv c phs am p).filterMap (startIdx j) = [] ∧
    (phaseLogic lv c phs am p).filterMap (mainIdx j) = [] ∧
    (phaseLogic lv c phs am p).filterMap (endIdx j) = [] :=
  ⟨List.filterMap_eq_nil.mpr (fun e he => (phaseLogic_no_hooks lv c j phs am p e he).1),
   List.filterMap_eq_nil.mpr (fun e he => (phaseLogic_no_hooks lv c j phs am p e he).2.1),
   List.filterMap_eq_nil.mpr (fun e he => (phaseLogic_no_hooks lv c j phs am p e he).2.2)⟩


/-- `OnStart` firings of level `d` read back their positions. -/
theorem fm_start_self (d : Nat) (c : Int) (m : Nat) :
    (List.map (fun i => Event.onStart d i c) (List.range m)).filterMap
      (startIdx d) = List.range m :=
  fm_map_some _ _ _ (fun i => by simp [startIdx])

/-- `OnStart` firings of level `d` are invisible at level `j ≠ d`. -/
theorem fm_start_ne (d j : Nat) (hne : ¬ d = j) (c : Int) (m : Nat) :
    (List.map (fun i => Event.onStart d i c) (List.range m)).filterMap
      (startIdx j) = [] :=
  fm_map_none _ _ _ (fun i => by simp only [startIdx]; exact if_neg hne)

/-- `OnStart` firings carry no `Main` positions. -/
theorem fm_start_main (d j : Nat) (c : Int) (m : Nat) :
    (List.map (fun i => Event.onStart d i c) (List.range m)).filterMap
      (mainIdx j) = [] :=
  fm_map_none _ _ _ (fun _ => rfl)

/-- `OnStart` firings carry no `OnEnd` positions. -/
theorem fm_start_end (d j : Nat) (c : Int) (m : Nat) :
    (List.map (fun i => Event.onStart d i c) (List.range m)).filterMap
      (endIdx j) = [] :=
  fm_map_none _ _ _ (fun _ => rfl)

/-- `Main` firings of level `d` read back their positions. -/
theorem fm_main_self (d : Nat) (c : Int) (m : Nat) :
    (List.map (fun i => Event.mainFn d i c) (List.range m)).filterMap
      (mainIdx d) = List.range m :=
  fm_map_some _ _ _ (fun i => by simp [mainIdx])

/-- `Main` firings of level `d` are invisible at level `j ≠ d`. -/
theorem fm_main_ne (d j : Nat) (hne : ¬ d = j) (c : Int) (m : Nat) :
    (List.map (fun i => Event.mainFn d i c) (List.range m)).filterMap
      (mainIdx j) = [] :=
  fm_map_none _ _ _ (fun i => by simp only [mainIdx]; exact if_neg hne)

/-- `Main` firings carry no `OnStart` positions. -/
theorem fm_main_start (d j : Nat) (c : Int) (m : Nat) :
    (List.map (fun i => Event.mainFn d i c) (List.range m)).filterMap
      (startIdx j) = [] :=
  fm_map_none _ _ _ (fun _ => rfl)

/-- `Main` firings carry no `OnEnd` positions. -/
theorem fm_main_end (d j : Nat) (c : Int) (m : Nat) :
    (List.map (fun i => Event.mainFn d i c) (List.range m)).filterMap
      (endIdx j) = [] :=
  fm_map_none _ _ _ (fun _ => rfl)

/-- `OnEnd` firings of level `d` read back their positions. -/
theorem fm_end_self (d : Nat) (c : Int) (m : Nat) :
    (List.map (fun i => Event.onEnd d i c) (List.range m)).filterMap
      (endIdx d) = List.range m :=
  fm_map_some _ _ _ (fun i => by simp [endIdx])

/-- `OnEnd` firings of level `d` are invisible at level `j ≠ d`. -/
theorem fm_end_ne (d j : Nat) (hne : ¬ d = j) (c : Int) (m : Nat) :
    (List.map (fun i => Event.onEnd d i c) (List.range m)).filterMap
      (endIdx j) = [] :=
  fm_map_none _ _ _ (fun i => by simp only [endIdx]; exact if_neg hne)

/-- `OnEnd` firings carry no `OnStart` positions. -/
theorem fm_end_start (d j : Nat) (c : Int) (m : Nat) :
    (List.map (fun i => Event.onEnd d i c) (List.range m)).filterMap
      (startIdx j) = [] :=
  fm_map_none _ _ _ (fun _ => rfl)

/-- `OnEnd` firings carry no `Main` positions. -/
theorem fm_end_main (d j : Nat) (c : Int) (m : Nat) :
    (List.map (fun i => Event.onEnd d i c) (List.range m)).filterMap
      (mainIdx j) = [] :=
  fm_map_none _ _ _ (fun _ => rfl)

/-- One level's while loop in a quiet state: with `n` iterations left to
run (counter + n = max), no predicate ever true and the levels below
behaving as `IH` describes, the loop completes, resets its counter, leaves
the control fields alone and emits `LoopCounts`-shaped hook firings. -/
theorem quiet_run_loop (cfg : Stack) (hP : NeverDone cfg) (d : Nat)
    (loop : Level) (hget : cfg.get? d = some loop) (hMd : 0 < loop.Max)
    (IH : ∀ s : Stepper, quiet s → cfg.length ≤ s.cur.length →
      (∀ j, d + 1 ≤ j → s.cur.getD j 0 = 0) →
      ∃ fuel s' tr,
        (∀ fuel', fuel ≤ fuel' → runLevel cfg fuel' (d + 1) s = some (s', true, tr)) ∧
        quiet s' ∧ s'.cur = s.cur ∧ s'.StopLevel = s.StopLevel ∧
        s'.StepIterations = s.StepIterations ∧ FullCounts cfg (d + 1) tr) :
    ∀ (n : Nat) (s : Stepper), quiet s → cfg.length ≤ s.cur.length →
      0 ≤ s.cur.getD d 0 → s.cur.getD d 0 + (n : Int) = loop.Max →
      (∀ j, d + 1 ≤ j → s.cur.getD j 0 = 0) →
      ∃ fuel s' tr,
        (∀ fuel', fuel ≤ fuel' → runLevel cfg fuel' d s = some (s', true, tr)) ∧
        quiet s' ∧ s'.cur = s.cur.set d 0 ∧ s'.StopLevel = s.StopLevel ∧
        s'.StepIterations = s.StepIterations ∧ LoopCounts cfg d n tr := by
  intro n
  induction n with
  | zero =>
    intro s hq hlen hge0 hsum _
    obtain ⟨SF, SN, SL, SI, LS, IS, CU, PN⟩ := s
    obtain ⟨h1, h2, h3, h4⟩ := hq
    cases h1; cases h2; cases h3; cases h4
    dsimp only at hlen hge0 hsum
    have hcond : ¬ (CU.getD d 0 < loop.Max ∨ loop.Max < 0) := by
      simp only [Nat.cast_zero, Int.add_zero] at hsum
      omega
    refine ⟨1, ⟨false, false, SL, SI, -1, false, CU.set d 0, PN⟩, [], ?_,
      ⟨rfl, rfl, rfl, rfl⟩, rfl, rfl, rfl, ?_⟩
    · intro fuel' hf
      obtain ⟨f, rfl⟩ : ∃ f, fuel' = f + 1 := ⟨fuel' - 1, by omega⟩
      show runLevel cfg (f + 1) d
        { StopFlag := false, StopNext := false, StopLevel := SL,
          StepIterations := SI, lastStoppedLevel := -1, internalStop := false,
          cur := CU, predN := PN } = _
      simp only [runLevel, hget]
      rw [if_neg hcond]
      rfl
    · intro j hj
      refine ⟨fun _ => ⟨rfl, rfl, rfl⟩, fun _ => ?_⟩
      simp
  | succ n ihn =>
    intro s hq hlen hge0 hsum hz
    obtain ⟨SF, SN, SL, SI, LS, IS, CU, PN⟩ := s
    obtain ⟨h1, h2, h3, h4⟩ := hq
    cases h1; cases h2; cases h3; cases h4
    dsimp only at hlen hge0 hsum hz
    have hd : d < cfg.length := by
      by_contra hcon
      rw [List.get?_eq_none.mpr (Nat.le_of_not_lt hcon)] at hget
      exact Option.noConfusion hget
    have hdc : d < CU.length := Nat.lt_of_lt_of_le hd hlen
    have hcond : CU.getD d 0 < loop.Max ∨ loop.Max < 0 := by
      left
      simp only [Nat.cast_succ] at hsum
      omega
    have hpe := passEnter_quiet d loop (CU.getD d 0)
      ⟨false, false, SL, SI, -1, false, CU, PN⟩ ⟨rfl, rfl, rfl, rfl⟩
    obtain ⟨fIn, s2, trIn, hrunIn, hq2, hcur2, hSL2, hSI2, hFC2⟩ :=
      IH ⟨false, false, SL, SI, -1, false, CU, PN⟩ ⟨rfl, rfl, rfl, rfl⟩ hlen hz
    dsimp only at hcur2 hSL2 hSI2
    have hPd : ∀ p ∈ loop.IsDone, ∀ k, p.2 k = false :=
      hP loop (List.get?_mem hget)
    obtain ⟨pn, evP, hID, hevP⟩ :=
      isDoneSeq_never d (CU.getD d 0) loop.IsDone hPd 0 s2
    have hdc2 : d < s2.cur.length := by rw [hcur2]; exact hdc
    obtain ⟨fL, s5, trR, hrunL, hq5, hcur5, hSL5, hSI5, hLC5⟩ :=
      ihn { s2 with cur := s2.cur.set d (CU.getD d 0 + 1), predN := pn }
        ⟨hq2.1, hq2.2.1, hq2.2.2.1, hq2.2.2.2⟩
        (by dsimp only
            rw [List.length_set, hcur2]
            exact hlen)
        (by dsimp only
            rw [getD_set_eq s2.cur d _ 0 hdc2]
            omega)
        (by dsimp only
            rw [getD_set_eq s2.cur d _ 0 hdc2]
            simp only [Nat.cast_succ] at hsum
            omega)
        (by intro j hj
            dsimp only
            rw [getD_set_ne s2.cur d j _ 0 (by omega), hcur2]
            exact hz j hj)
    dsimp only at hcur5 hSL5 hSI5
    refine ⟨max fIn fL + 1, s5,
      ((List.range loop.OnStart).map (fun i => Event.onStart d i (CU.getD d 0)) ++
        phaseLogic d (CU.getD d 0) loop.Phases 0 0) ++ trIn ++
        ((List.range loop.Main).map (fun i => Event.mainFn d i (CU.getD d 0)) ++
         (List.range loop.OnEnd).map (fun i => Event.onEnd d i (CU.getD d 0)) ++
         evP) ++ trR,
      ?_, hq5, ?_, ?_, ?_, ?_⟩
    · intro fuel' hf
      obtain ⟨f, rfl⟩ : ∃ f, fuel' = f + 1 := ⟨fuel' - 1, by omega⟩
      have hf1 : fIn ≤ f := by omega
      have hf2 : fL ≤ f := by omega
      show runLevel cfg (f + 1) d
        { StopFlag := false, StopNext := false, StopLevel := SL,
          StepIterations := SI, lastStoppedLevel := -1, internalStop := false,
          cur := CU, predN := PN } = _
      simp only [runLevel, hget]
      rw [if_pos hcond]
      simp only [hpe, hrunIn f hf1, if_true, passAfter, hID,
        Bool.false_eq_true, if_false, hrunL f hf2, List.append_assoc]
    · rw [hcur5, List.set_set, hcur2]
    · rw [hSL5, hSL2]
    · rw [hSI5, hSI2]
    · intro j hj
      have hnst : nStartAt cfg d = loop.OnStart := by
        simp only [nStartAt]
        rw [hget]
      have hnm : nMainAt cfg d = loop.Main := by
        simp only [nMainAt]
        rw [hget]
      have hne2 : nEndAt cfg d = loop.OnEnd := by
        simp only [nEndAt]
        rw [hget]
      obtain ⟨hPha, hPhb, hPhc⟩ := fm_phase d (CU.getD d 0) j loop.Phases 0 0
      obtain ⟨pA, pB, pC⟩ := hevP j
      constructor
      · intro hjd
        obtain ⟨i1, i2, i3⟩ := (hFC2 j hj).1 (by omega)
        obtain ⟨r1, r2, r3⟩ := (hLC5 j hj).1 hjd
        have hne : ¬ d = j := by omega
        refine ⟨?_, ?_, ?_⟩
        · simp only [List.filterMap_append, i1, r1, pA, hPha,
            fm_start_ne d j hne, fm_main_start, fm_end_start, List.append_nil]
        · simp only [List.filterMap_append, i2, r2, pB, hPhb,
            fm_start_main, fm_main_ne d j hne, fm_end_main, List.append_nil]
        · simp only [List.filterMap_append, i3, r3, pC, hPhc,
            fm_start_end, fm_main_end, fm_end_ne d j hne, List.append_nil]
      · intro hjd
        rcases Nat.lt_or_ge d j with hdj | hdj
        · obtain ⟨i1, i2, i3⟩ := (hFC2 j hj).2 (by omega)
          obtain ⟨r1, r2, r3⟩ := (hLC5 j hj).2 (by omega)
          have hne : ¬ d = j := by omega
          have harith : (n + 1) * prodMax cfg (d + 1) j =
              prodMax cfg (d + 1) j + n * prodMax cfg (d + 1) j := by ring
          refine ⟨?_, ?_, ?_⟩
          · simp only [List.filterMap_append, i1, r1, pA, hPha,
              fm_start_ne d j hne, fm_main_start, fm_end_start]
            rw [harith, join_replicate_add]
            simp
          · simp only [List.filterMap_append, i2, r2, pB, hPhb,
              fm_start_main, fm_main_ne d j hne, fm_end_main]
            rw [harith, join_replicate_add]
            simp
          · simp only [List.filterMap_append, i3, r3, pC, hPhc,
              fm_start_end, fm_main_end, fm_end_ne d j hne]
            rw [harith, join_replicate_add]
            simp
        · have hje : j = d := by omega
          subst hje
          obtain ⟨i1, i2, i3⟩ := (hFC2 j hj).1 (by omega)
          obtain ⟨r1, r2, r3⟩ := (hLC5 j hj).2 (by omega)
          have hp1 : prodMax cfg (j + 1) j = 1 :=
            prodMax_of_gt cfg (j + 1) j (by omega)
          refine ⟨?_, ?_, ?_⟩
          · simp only [List.filterMap_append, i1, r1, pA, hPha,
              fm_start_self, fm_main_start, fm_end_start, hp1, hnst,
              Nat.mul_one]
            rw [join_replicate_succ]
            simp
          · simp only [List.filterMap_append, i2, r2, pB, hPhb,
              fm_start_main, fm_main_self, fm_end_main, hp1, hnm, Nat.mul_one]
            rw [join_replicate_succ]
            simp
          · simp only [List.filterMap_append, i3, r3, pC, hPhc,
              fm_start_end, fm_main_end, fm_end_self, hp1, hne2, Nat.mul_one]
            rw [join_replicate_succ]
            simp

/-- `runLevel` past the bottom of the stack returns at once (line 48). -/
theorem runLevel_bottom (cfg : Stack) (f d : Nat) (s : Stepper)
    (h : cfg.length ≤ d) : runLevel cfg (f + 1) d s = some (s, true, []) := by
  have hn : cfg.get? d = none := List.get?_eq_none.mpr h
  simp only [runLevel, hn]

/-- A quiet full run of the levels from depth `d` down: completes, leaves
every counter (and the control fields) as found, and fires hooks per
`FullCounts`.  Induction over the number `k` of levels below `d`. -/
theorem quiet_run_levels (cfg : Stack) (hM : ∀ L ∈ cfg, 0 < L.Max)
    (hP : NeverDone cfg) :
    ∀ (k d : Nat), cfg.length ≤ d + k →
      ∀ s : Stepper, quiet s → cfg.length ≤ s.cur.length →
      (∀ j, d ≤ j → s.cur.getD j 0 = 0) →
      ∃ fuel s' tr,
        (∀ fuel', fuel ≤ fuel' → runLevel cfg fuel' d s = some (s', true, tr)) ∧
        quiet s' ∧ s'.cur = s.cur ∧ s'.StopLevel = s.StopLevel ∧
        s'.StepIterations = s.StepIterations ∧ FullCounts cfg d tr := by
  intro k
  induction k with
  | zero =>
    intro d hdk s hq _ _
    refine ⟨1, s, [], ?_, hq, rfl, rfl, rfl, ?_⟩
    · intro fuel' hf
      obtain ⟨f, rfl⟩ : ∃ f, fuel' = f + 1 := ⟨fuel' - 1, by omega⟩
      exact runLevel_bottom cfg f d s (by omega)
    · intro j hj
      exact ⟨fun _ => ⟨rfl, rfl, rfl⟩, fun _ => (by omega : False).elim⟩
  | succ k ihk =>
    intro d hdk s hq hlen hz
    by_cases hdl : cfg.length ≤ d
    · refine ⟨1, s, [], ?_, hq, rfl, rfl, rfl, ?_⟩
      · intro fuel' hf
        obtain ⟨f, rfl⟩ : ∃ f, fuel' = f + 1 := ⟨fuel' - 1, by omega⟩
        exact runLevel_bottom cfg f d s hdl
      · intro j hj
        exact ⟨fun _ => ⟨rfl, rfl, rfl⟩, fun _ => (by omega : False).elim⟩
    · have hdlt : d < cfg.length := by omega
      obtain ⟨loop, hget⟩ : ∃ loop, cfg.get? d = some loop :=
        ⟨_, List.get?_eq_get hdlt⟩
      have hMd : 0 < loop.Max := hM loop (List.get?_mem hget)
      have hz0 : s.cur.getD d 0 = 0 := hz d (Nat.le_refl d)
      have hMcast : ((loop.Max.toNat : Int)) = loop.Max :=
        Int.toNat_of_nonneg (Int.le_of_lt hMd)
      obtain ⟨fuel, s', tr, hrun, hq', hcur, hSL, hSI, hLC⟩ :=
        quiet_run_loop cfg hP d loop hget hMd
          (fun s1 hq1 hlen1 hz1 => ihk (d + 1) (by omega) s1 hq1 hlen1 hz1)
          loop.Max.toNat s hq hlen (by omega)
          (by rw [hz0, hMcast]; omega)
          (fun j hj => hz j (by omega))
      refine ⟨fuel, s', tr, hrun, hq', ?_, hSL, hSI, ?_⟩
      · rw [hcur]
        exact set_zero_of_getD s.cur d hz0
      · intro j hj
        refine ⟨(hLC j hj).1, fun hdj => ?_⟩
        obtain ⟨c1, c2, c3⟩ := (hLC j hj).2 hdj
        have hmx : maxAt cfg d = loop.Max := by
          simp only [maxAt]
          rw [hget]
        rw [prodMax_step cfg d j hdj, hmx]
        exact ⟨c1, c2, c3⟩

/-- C2 (amended): for every configuration whose levels all have a positive
counter max, with no stop or step request ever issued *and no termination
predicate ever returning true*, `run()` terminates (every sufficiently
large fuel bound returns the same finished result) with `completed = true`,
every level's counter back at 0, and for every level `j` the positions of
its `OnStart`/`Main` (onComplete)/`OnEnd` hook firings are exactly
`prodMax cfg 0 j` rounds of `0, …, len-1` — each hook fired exactly the
product of the iteration counts of the loops enclosing it (its own level's
max included), in registration order within each round. -/
theorem C2_bounded_quiet_counts (cfg : Stack) (hM : ∀ L ∈ cfg, 0 < L.Max)
    (hP : NeverDone cfg) (t : Nat) :
    ∃ fuel s' tr,
      (∀ fuel', fuel ≤ fuel' → Run cfg fuel' (Init cfg t) = some (s', true, tr)) ∧
      (∀ j, s'.cur.getD j 0 = 0) ∧ FullCounts cfg 0 tr := by
  obtain ⟨fuel, s', tr, hrun, _, hcur, _, _, hFC⟩ :=
    quiet_run_levels cfg hM hP cfg.length 0 (by omega) (Init cfg t)
      ⟨rfl, rfl, rfl, rfl⟩ (by simp [Init]) (fun j _ => getD_replicate_zero _ _)
  refine ⟨fuel, s', tr, ?_, ?_, hFC⟩
  · intro fuel' hf
    exact hrun fuel' hf
  · intro j
    rw [hcur]
    exact getD_replicate_zero _ j

/-- C2 witness: the amended theorem applied to the two-level configuration
`cfgC2w` (maxes 2 and 3, no predicates). -/
theorem C2_bounded_quiet_counts_witness :
    ∃ fuel s' tr,
      (∀ fuel', fuel ≤ fuel' →
        Run cfgC2w fuel' (Init cfgC2w 0) = some (s', true, tr)) ∧
      (∀ j, s'.cur.getD j 0 = 0) ∧ FullCounts cfgC2w 0 tr :=
  C2_bounded_quiet_counts cfgC2w
    (by intro L hL
        simp only [cfgC2w, List.mem_cons, List.not_mem_nil, or_false] at hL
        rcases hL with rfl | rfl <;> decide)
    (by intro L hL p hp _
        simp only [cfgC2w, List.mem_cons, List.not_mem_nil, or_false] at hL
        rcases hL with rfl | rfl <;> exact absurd hp (List.not_mem_nil p))
    0

/-- Lists of length at most one have a unique iteration order: a
permutation between them is an equality. -/
theorem perm_eq_of_short {α : Type} {l1 l2 : List α} (h : l1.Perm l2)
    (hl : l1.length ≤ 1) : l1 = l2 := by
  cases l1 with
  | nil => exact (List.Perm.eq_nil h.symm).symm
  | cons a t =>
    cases t with
    | nil => exact List.singleton_perm.mp h
    | cons b t2 => simp at hl

/-- Two `PermutedIsDone` stacks in which every level holds at most one
predicate are the same stack. -/
theorem permuted_eq : ∀ c1 c2 : Stack, PermutedIsDone c1 c2 →
    (∀ L ∈ c1, L.IsDone.length ≤ 1) → c1 = c2 := by
  intro c1 c2 h
  induction h with
  | nil => intro _; rfl
  | cons hR hF ih =>
    intro hone
    rename_i a b l1 l2
    obtain ⟨e1, e2, e3, e4, e5, e6, e7⟩ := hR
    have hIsD : a.IsDone = b.IsDone :=
      perm_eq_of_short e7 (hone a (List.mem_cons_self a l1))
    have hab : a = b := by
      obtain ⟨t1, m1, o1, ma1, oe1, id1, ph1⟩ := a
      obtain ⟨t2, m2, o2, ma2, oe2, id2, ph2⟩ := b
      dsimp only at e1 e2 e3 e4 e5 e6 hIsD
      subst e1; subst e2; subst e3; subst e4; subst e5; subst e6; subst hIsD
      rfl
    rw [hab, ih (fun L hL => hone L (List.mem_cons_of_mem a hL))]

/-- C4 (amended): execution is deterministic once the iteration order of
each level's `IsDone` predicate map is fixed — which is automatic when
every level registers at most one predicate.  Two executions over the same
Go configuration (`PermutedIsDone` stacks) with at most one predicate per
level, the same stop/step-request state and the same fuel produce the
same result: same hook and predicate firing sequence, same final counters. -/
theorem C4_deterministic_same_map_order (c1 c2 : Stack)
    (hperm : PermutedIsDone c1 c2) (hone : ∀ L ∈ c1, L.IsDone.length ≤ 1)
    (fuel : Nat) (s : Stepper) :
    Run c1 fuel s = Run c2 fuel s := by
  rw [permuted_eq c1 c2 hperm hone]

/-- C4 witness: the amended theorem applied to the one-predicate
configurations `cfgC4w1`/`cfgC4w2`. -/
theorem C4_deterministic_same_map_order_witness :
    Run cfgC4w1 10 (Init cfgC4w1 0) = Run cfgC4w2 10 (Init cfgC4w1 0) :=
  C4_deterministic_same_map_order cfgC4w1 cfgC4w2
    (List.Forall₂.cons
      ⟨rfl, rfl, rfl, rfl, rfl, rfl, List.Perm.refl _⟩ List.Forall₂.nil)
    (by intro L hL
        simp only [cfgC4w1, List.mem_cons, List.not_mem_nil, or_false] at hL
        subst hL
        decide)
    10 (Init cfgC4w1 0)

/-- Walking a predicate list whose members are false at their current
invocation counts up to position `j`, where the predicate returns true:
exactly the predicates `0..j` are evaluated (the trace records nothing
else), in order, and the level's counter is reset to 0 by the `goto`. -/
theorem isDoneSeq_first_true (lv : Nat) (c : Int) :
    ∀ (preds : List (String × (Nat → Bool))) (j i : Nat) (s : Stepper),
      j < preds.length →
      (∀ m, m < j →
        (preds.getD m pdflt).2 ((s.predN.getD lv []).getD (i + m) 0) = false) →
      (preds.getD j pdflt).2 ((s.predN.getD lv []).getD (i + j) 0) = true →
      lv < s.predN.length →
      ∃ s', isDoneSeq lv c preds i s =
        (s', ((List.range j).map
            (fun m => Event.isDoneEv lv (preds.getD m pdflt).1 false c)) ++
          [Event.isDoneEv lv (preds.getD j pdflt).1 true c], true) ∧
        s'.cur = s.cur.set lv 0 ∧ s'.internalStop = s.internalStop := by
  intro preds
  induction preds with
  | nil => intro j i s hj; exact absurd hj (by simp)
  | cons p rest ih =>
    intro j i s hj hfalse htrue hlen
    obtain ⟨nm, b⟩ := p
    cases j with
    | zero =>
      have hb : b ((s.predN.getD lv []).getD i 0) = true := by
        have := htrue
        simp only [List.getD_cons_zero, Nat.add_zero] at this
        exact this
      refine ⟨({ s with
          cur := s.cur.set lv 0,
          predN := s.predN.set lv ((s.predN.getD lv []).set i
            (((s.predN.getD lv []).getD i 0) + 1)) } : Stepper), ?_, ?_, ?_⟩
      · simp only [isDoneSeq, hb, List.range_zero, List.map_nil,
          List.nil_append, List.getD_cons_zero, if_true]
      · rfl
      · rfl
    | succ j' =>
      have hb : b ((s.predN.getD lv []).getD i 0) = false := by
        have := hfalse 0 (Nat.succ_pos j')
        simp only [List.getD_cons_zero, Nat.add_zero] at this
        exact this
      have hk : ∀ m, ((s.predN.set lv ((s.predN.getD lv []).set i
            (((s.predN.getD lv []).getD i 0) + 1))).getD lv []).getD (i + 1 + m) 0 =
          (s.predN.getD lv []).getD (i + (m + 1)) 0 := by
        intro m
        rw [getD_set_eq s.predN lv _ [] hlen,
          getD_set_ne ((s.predN.getD lv [])) i (i + 1 + m) _ 0 (by omega)]
        congr 1
        omega
      obtain ⟨s', heq, hcur, hstp⟩ := ih j' (i + 1)
        { s with predN := s.predN.set lv ((s.predN.getD lv []).set i
            (((s.predN.getD lv []).getD i 0) + 1)) }
        (by simpa using hj)
        (by intro m hm
            dsimp only
            rw [hk m]
            have := hfalse (m + 1) (by omega)
            simpa using this)
        (by dsimp only
            rw [hk j']
            have := htrue
            simpa using this)
        (by dsimp only; rw [List.length_set]; exact hlen)
      refine ⟨s', ?_, by simpa using hcur, by simpa using hstp⟩
      simp only [isDoneSeq, hb]
      rw [heq]
      have hmap : (List.range (j' + 1)).map
          (fun m => Event.isDoneEv lv ((((nm, b)) :: rest).getD m pdflt).1 false c) =
          Event.isDoneEv lv nm false c ::
            (List.range j').map
              (fun m => Event.isDoneEv lv (rest.getD m pdflt).1 false c) := by
        rw [List.range_succ_eq_map, List.map_cons, List.map_map]
        simp only [List.getD_cons_zero]
        congr 1
      rw [hmap]
      simp only [List.getD_cons_succ, List.cons_append, Bool.false_eq_true,
        if_false]

/-- C5 (amended): after an inner iteration completes at a level, the
termination predicates are evaluated one at a time in the map's iteration
order, stopping at the first that returns true — predicates after it are
not evaluated (the trace records exactly the evaluations 0..j).  When one
returns true the level's counter is reset to 0 and the while loop exits at
once regardless of remaining counter budget: `runLevel` returns
`complete = true` with nothing after the predicate events.  Stated for any
pass whose head ran (`passEnter` returned `go`), whose inner run completed,
and whose predicate list first returns true at position `j` under the
current invocation counts. -/
theorem C5_first_true_predicate_exits (cfg : Stack) (fuel d : Nat)
    (loop : Level) (s s1 s2 : Stepper) (evs evIn : List Event) (j : Nat)
    (hget : cfg.get? d = some loop)
    (hcond : s.cur.getD d 0 < loop.Max ∨ loop.Max < 0)
    (hpe : passEnter d loop (s.cur.getD d 0) s = PassCtl.go s1 evs)
    (hin : runLevel cfg fuel (d + 1) s1 = some (s2, true, evIn))
    (hj : j < loop.IsDone.length)
    (hfalse : ∀ m, m < j →
      (loop.IsDone.getD m pdflt).2 ((s2.predN.getD d []).getD m 0) = false)
    (htrue : (loop.IsDone.getD j pdflt).2 ((s2.predN.getD d []).getD j 0) = true)
    (hplen : d < s2.predN.length) (hclen : d < s2.cur.length)
    (hstop : s2.internalStop = false) :
    ∃ s3, runLevel cfg (fuel + 1) d s = some (s3, true,
        evs ++ evIn ++
        ((List.range loop.Main).map (fun i => Event.mainFn d i (s.cur.getD d 0)) ++
         (List.range loop.OnEnd).map (fun i => Event.onEnd d i (s.cur.getD d 0)) ++
         (((List.range j).map (fun m =>
             Event.isDoneEv d (loop.IsDone.getD m pdflt).1 false (s.cur.getD d 0))) ++
          [Event.isDoneEv d (loop.IsDone.getD j pdflt).1 true (s.cur.getD d 0)]))) ∧
      s3.cur.getD d 0 = 0 := by
  obtain ⟨s', hID, hcur, hstp⟩ :=
    isDoneSeq_first_true d (s.cur.getD d 0) loop.IsDone j 0 s2 hj
      (by intro m hm; simpa using hfalse m hm) (by simpa using htrue) hplen
  refine ⟨exitLoopSt d s', ?_, ?_⟩
  · simp only [runLevel, hget]
    rw [if_pos hcond]
    simp only [hpe, hin, if_true, passAfter, hID]
  · have hsint : s'.internalStop = false := by rw [hstp]; exact hstop
    simp only [exitLoopSt, hsint, Bool.false_eq_true, if_false]
    rw [getD_set_eq]
    rw [hcur, List.length_set]
    exact hclen

/-- C5 witness: the amended theorem applied to `cfgC5w` (one level, max 5,
single always-true predicate): one completed pass fires `Main`, `OnEnd`,
evaluates the predicate once, resets the counter and exits completed. -/
theorem C5_first_true_predicate_exits_witness :
    ∃ s3, runLevel cfgC5w 2 0 (Init cfgC5w 0) = some (s3, true,
        [Event.mainFn 0 0 0, Event.onEnd 0 0 0, Event.isDoneEv 0 "q" true 0]) ∧
      s3.cur.getD 0 0 = 0 := by
  obtain ⟨s3, h1, h2⟩ :=
    C5_first_true_predicate_exits cfgC5w 1 0
      { Time := 0, Max := 5, OnStart := 0, Main := 1, OnEnd := 1,
        IsDone := [("q", fun _ => true)], Phases := [] }
      (Init cfgC5w 0) (Init cfgC5w 0) (Init cfgC5w 0) [] [] 0
      rfl (by decide) rfl rfl (by decide)
      (fun m hm => absurd hm (Nat.not_lt_zero m))
      (by decide) (by decide) (by decide) rfl
  exact ⟨s3, by simpa using h1, h2⟩
